import Mathlib

/-!
Shallow embedding of the playlist container of this repository
(`TrackNode` / `MusicLinkedList`, src/src/App.tsx).

The circular doubly linked ring is represented by the list of its nodes in
ring order starting at `head` (`ring`); `head` is the node at index 0, the
pointer `node.next` of the node at index `i` is the node at index
`(i + 1) % ring.length`, and `node.prev` is the node at index
`(i + ring.length - 1) % ring.length`.  The `current` pointer is the index of
the current node in `ring` (`none` models the null pointer).  The fields
`size`, `isShuffled` and `originalOrder` are carried verbatim.  Track nodes
are identified with their track values; `trackId`s are strings exactly as in
the source.  `Math.random()` draws inside `shuffle` are modelled by an
explicit oracle `js : Nat → Nat` giving the drawn index at each loop step.
-/

/-- A music track, mirroring the data fields of `TrackNode` (the `next`/`prev`
pointers are represented by the ring list, not stored in the node). -/
structure Track where
  id : String
  title : String
  artist : String
  duration : Nat
  audioUrl : String
  coverUrl : Option String
  genre : Option String
deriving DecidableEq, Repr

/-- State of `MusicLinkedList`: `ring` is the list of nodes in ring order
starting at `head`; `current` is the index of the current node in `ring`
(`none` = null); `size`, `isShuffled`, `originalOrder` as in the source. -/
structure MusicLinkedList where
  ring : List Track
  current : Option Nat
  size : Nat
  isShuffled : Bool
  originalOrder : List Track
deriving Repr

namespace MusicLinkedList

/-- The freshly-constructed list: all fields at their initializers. -/
def empty : MusicLinkedList :=
  { ring := [], current := none, size := 0, isShuffled := false, originalOrder := [] }

/-- `getAllTracks()`: traverses the ring from `head` following `next` until it
returns to `head`, i.e. produces exactly the ring list. -/
def getAllTracks (l : MusicLinkedList) : List Track :=
  l.ring

/-- `updateOriginalOrder()`: if not shuffled, overwrite `originalOrder` with
the current `getAllTracks()`. -/
def updateOriginalOrder (l : MusicLinkedList) : MusicLinkedList :=
  if l.isShuffled then l else { l with originalOrder := l.getAllTracks }

/-- `addTrack(track)`: if `head` is null, the new node becomes `head` and
`current` and links to itself; otherwise it is spliced in before `head`
(at the ring's tail).  Then `size++` and `updateOriginalOrder()`. -/
def addTrack (t : Track) (l : MusicLinkedList) : MusicLinkedList :=
  let l' :=
    if l.ring.isEmpty then
      { l with ring := [t], current := some 0, size := l.size + 1 }
    else
      { l with ring := l.ring ++ [t], size := l.size + 1 }
  l'.updateOriginalOrder

/-- `tracks.forEach(track => this.addTrack(track))`. -/
def addAll (ts : List Track) (l : MusicLinkedList) : MusicLinkedList :=
  ts.foldl (fun acc t => acc.addTrack t) l

/-- `nextTrack()`: null current returns null unchanged; otherwise `current`
moves to `current.next` and the new current node is returned. -/
def nextTrack (l : MusicLinkedList) : Option Track × MusicLinkedList :=
  match l.current with
  | none => (none, l)
  | some i =>
    let j := (i + 1) % l.ring.length
    (l.ring[j]?, { l with current := some j })

/-- `prevTrack()`: null current returns null unchanged; otherwise `current`
moves to `current.prev` and the new current node is returned. -/
def prevTrack (l : MusicLinkedList) : Option Track × MusicLinkedList :=
  match l.current with
  | none => (none, l)
  | some i =>
    let j := (i + l.ring.length - 1) % l.ring.length
    (l.ring[j]?, { l with current := some j })

/-- `getCurrentTrack()`. -/
def getCurrentTrack (l : MusicLinkedList) : Option Track :=
  l.current.bind (fun i => l.ring[i]?)

/-- The do-while search from `head` used by `setCurrentTrack` and
`removeTrack`: index of the first node in ring order whose id matches. -/
def findTrackIdx (trackId : String) : List Track → Option Nat
  | [] => none
  | t :: ts =>
    if t.id == trackId then some 0
    else (findTrackIdx trackId ts).map (· + 1)

/-- `setCurrentTrack(trackId)`: linear search from `head`; on match set
`current` to the found node and return it, else return null unchanged. -/
def setCurrentTrack (trackId : String) (l : MusicLinkedList) :
    Option Track × MusicLinkedList :=
  match findTrackIdx trackId l.ring with
  | none => (none, l)
  | some j => (l.ring[j]?, { l with current := some j })

/-- `clear()`: `head = null; current = null; size = 0` (nothing else). -/
def clear (l : MusicLinkedList) : MusicLinkedList :=
  { l with ring := [], current := none, size := 0 }

/-- `getSize()`. -/
def getSize (l : MusicLinkedList) : Nat :=
  l.size

/-- `isEmpty()`. -/
def isEmpty (l : MusicLinkedList) : Bool :=
  l.size == 0

/-- `getIsShuffled()`. -/
def getIsShuffled (l : MusicLinkedList) : Bool :=
  l.isShuffled

end MusicLinkedList

/-- `[tracks[i], tracks[j]] = [tracks[j], tracks[i]]`: swap two positions of a
list (identity when an index is out of range, which the shuffle loop never
produces). -/
def listSwap (l : List Track) (i j : Nat) : List Track :=
  match l[i]?, l[j]? with
  | some a, some b => (l.set i b).set j a
  | _, _ => l

/-- The Fisher-Yates loop `for (let i = tracks.length - 1; i > 0; i--)`
with the random draw at step `i` modelled by `js i`
(= `Math.floor(Math.random() * (i + 1))`, hence a value in `[0, i]`). -/
def fyLoop (js : Nat → Nat) : Nat → List Track → List Track
  | 0, ts => ts
  | i + 1, ts => fyLoop js i (listSwap ts (i + 1) (js (i + 1)))

/-- The whole Fisher-Yates pass of `shuffle()` over the materialized array. -/
def fisherYates (js : Nat → Nat) (ts : List Track) : List Track :=
  fyLoop js (ts.length - 1) ts

namespace MusicLinkedList

/-- `shuffle()`: no-op when `size <= 1`; otherwise permute `getAllTracks()` by
Fisher-Yates, remember the current node, `clear()`, re-insert every track via
`addTrack`, re-select the remembered current id, then set `isShuffled = true`.
Note the rebuild happens while `isShuffled` still has its old value, so each
`addTrack` runs `updateOriginalOrder()` under that old flag. -/
def shuffle (js : Nat → Nat) (l : MusicLinkedList) : MusicLinkedList :=
  if l.size ≤ 1 then l
  else
    let tracks := fisherYates js l.getAllTracks
    let currentTrack := l.getCurrentTrack
    let l1 := addAll tracks l.clear
    let l2 :=
      match currentTrack with
      | some t => (l1.setCurrentTrack t.id).2
      | none => l1
    { l2 with isShuffled := true }

/-- `restoreOrder()`: no-op when not shuffled or `originalOrder` is empty;
otherwise rebuild from `originalOrder` (clear + re-insert), re-select the
remembered current id and set `isShuffled = false`. -/
def restoreOrder (l : MusicLinkedList) : MusicLinkedList :=
  if !l.isShuffled || l.originalOrder.isEmpty then l
  else
    let currentTrack := l.getCurrentTrack
    let l1 := addAll l.originalOrder l.clear
    let l2 :=
      match currentTrack with
      | some t => (l1.setCurrentTrack t.id).2
      | none => l1
    { l2 with isShuffled := false }

end MusicLinkedList

/-- `sub` matches at the start of the second list (the prefix test underlying
JavaScript `String.prototype.includes`). -/
def matchesAt : List Char → List Char → Bool
  | [], _ => true
  | _ :: _, [] => false
  | c :: cs, d :: ds => c == d && matchesAt cs ds

/-- `sub` occurs contiguously somewhere in the list. -/
def occursIn (sub : List Char) : List Char → Bool
  | [] => matchesAt sub []
  | c :: cs => matchesAt sub (c :: cs) || occursIn sub cs

/-- JavaScript `s.includes(sub)`: contiguous substring test. -/
def strIncludes (s sub : String) : Bool :=
  occursIn sub.data s.data

/-- JavaScript `s.toLowerCase()`: characterwise lowering. -/
def strToLower (s : String) : String :=
  String.mk (s.data.map Char.toLower)

namespace MusicLinkedList

/-- `searchTracks(query)`: keep the tracks whose lowered title, artist or
genre contains the lowered query (`genre?.` yields no match when absent). -/
def searchTracks (query : String) (l : MusicLinkedList) : List Track :=
  let searchTerm := strToLower query
  l.getAllTracks.filter (fun t =>
    strIncludes (strToLower t.title) searchTerm ||
    strIncludes (strToLower t.artist) searchTerm ||
    (match t.genre with
     | some g => strIncludes (strToLower g) searchTerm
     | none => false))

/-- `getTracksByGenre(genre)`: case-insensitive exact genre match
(`genre?.toLowerCase() === genre.toLowerCase()`, false when absent). -/
def getTracksByGenre (genre : String) (l : MusicLinkedList) : List Track :=
  l.getAllTracks.filter (fun t =>
    match t.genre with
    | some g => strToLower g == strToLower genre
    | none => false)

/-- `getTotalDuration()`: `reduce((total, track) => total + track.duration, 0)`. -/
def getTotalDuration (l : MusicLinkedList) : Nat :=
  l.getAllTracks.foldl (fun total t => total + t.duration) 0

end MusicLinkedList

/-- JavaScript `s.padStart(2, '0')`. -/
def padStart2 (s : String) : String :=
  if s.length < 2 then String.mk (List.replicate (2 - s.length) '0') ++ s else s

namespace MusicLinkedList

/-- `getFormattedTotalDuration()`: `H:MM:SS` when `hours > 0`, else `M:SS`. -/
def getFormattedTotalDuration (l : MusicLinkedList) : String :=
  let totalSeconds := l.getTotalDuration
  let hours := totalSeconds / 3600
  let minutes := (totalSeconds % 3600) / 60
  let seconds := totalSeconds % 60
  if hours > 0 then
    toString hours ++ ":" ++ padStart2 (toString minutes) ++ ":" ++
      padStart2 (toString seconds)
  else
    toString minutes ++ ":" ++ padStart2 (toString seconds)

/-- `removeTrack(trackId)`.  Index bookkeeping of the splice, with `n` the old
ring length and `k` the index of the removed node: the new ring list is
`ring.eraseIdx k` (when `k = 0` the code sets `head = nodeToRemove.next`, i.e.
the list now starts at the old index 1, which is exactly `eraseIdx 0`); a
surviving node with old index `m` has new index `m` if `m < k` and `m - 1`
otherwise; when the removed node was `current`, `current` becomes its former
`next`, the node at old index `(k + 1) % n`. -/
def removeTrack (trackId : String) (l : MusicLinkedList) :
    Bool × MusicLinkedList :=
  if l.ring.isEmpty || l.size == 0 then (false, l)
  else
    match findTrackIdx trackId l.ring with
    | none => (false, l)
    | some k =>
      if l.size == 1 then (true, l.clear)
      else
        let n := l.ring.length
        let newIdx := fun m => if m < k then m else m - 1
        let current' :=
          match l.current with
          | none => none
          | some c =>
            if c = k then some (newIdx ((k + 1) % n)) else some (newIdx c)
        let l' := { l with ring := l.ring.eraseIdx k, current := current',
                           size := l.size - 1 }
        (true, l'.updateOriginalOrder)

end MusicLinkedList

/-- Validity of the `current` index relative to the ring length: a null
current is only allowed on an empty ring, a non-null current must be a
position inside the ring. -/
def currentOK : Option Nat → Nat → Prop
  | none, n => n = 0
  | some i, n => i < n

instance (c : Option Nat) (n : Nat) : Decidable (currentOK c n) :=
  match c with
  | none => inferInstanceAs (Decidable (n = 0))
  | some i => inferInstanceAs (Decidable (i < n))

/-- Well-formed container state: the `size` field counts the ring nodes and
`current` is a valid ring position (null exactly on the empty ring). -/
def WF (l : MusicLinkedList) : Prop :=
  l.size = l.ring.length ∧ currentOK l.current l.ring.length

instance (l : MusicLinkedList) : Decidable (WF l) :=
  inferInstanceAs (Decidable (_ ∧ _))

/-- The `next` pointer at the index level: in a ring of `n` nodes the
successor of the node at index `i` is the node at index `(i + 1) % n`. -/
def nextIdx (n i : Nat) : Nat := (i + 1) % n

/-- The `prev` pointer at the index level. -/
def prevIdx (n i : Nat) : Nat := (i + n - 1) % n

/-- Pointer chasing: follow a link map `m` times from index `i`. -/
def iterIdx (f : Nat → Nat) : Nat → Nat → Nat
  | 0, i => i
  | m + 1, i => iterIdx f m (f i)

/-- The ring-structure part of the data-structure invariant: following `next`
`size` times from `head` (index 0) returns to `head`, likewise for `prev`,
and on every node the two links are mutually inverse. -/
def ringClosed (l : MusicLinkedList) : Prop :=
  iterIdx (nextIdx l.ring.length) l.size 0 = 0 ∧
  iterIdx (prevIdx l.ring.length) l.size 0 = 0 ∧
  ∀ i, i < l.ring.length →
    prevIdx l.ring.length (nextIdx l.ring.length i) = i ∧
    nextIdx l.ring.length (prevIdx l.ring.length i) = i

/-- The documented container invariant: `size == 0` exactly when `head` and
`current` are both null, and a non-empty container is a single circular
doubly-linked ring of exactly `size` nodes. -/
def Invariant (l : MusicLinkedList) : Prop :=
  (l.size = 0 ↔ (l.ring = [] ∧ l.current = none)) ∧
  (0 < l.size → l.ring.length = l.size ∧ ringClosed l)

/-- `size` successive calls of `nextTrack()` (state part). -/
def iterNext : Nat → MusicLinkedList → MusicLinkedList
  | 0, l => l
  | m + 1, l => iterNext m l.nextTrack.2

/-- `size` successive calls of `prevTrack()` (state part). -/
def iterPrev : Nat → MusicLinkedList → MusicLinkedList
  | 0, l => l
  | m + 1, l => iterPrev m l.prevTrack.2

/-- Sample track used by concrete witnesses. -/
def trackA : Track :=
  { id := "A", title := "Shape of You", artist := "Ed Sheeran",
    duration := 233, audioUrl := "a.mp3", coverUrl := none, genre := some "Pop" }

/-- Sample track used by concrete witnesses. -/
def trackB : Track :=
  { id := "B", title := "Blinding Lights", artist := "The Weeknd",
    duration := 200, audioUrl := "b.mp3", coverUrl := none, genre := some "Synthpop" }

/-- Sample track used by concrete witnesses. -/
def trackC : Track :=
  { id := "C", title := "Levitating", artist := "Dua Lipa",
    duration := 3700, audioUrl := "c.mp3", coverUrl := none, genre := none }

/-- Sample container holding `trackA` then `trackB`, built by insertion. -/
def sampleL : MusicLinkedList :=
  (MusicLinkedList.empty.addTrack trackA).addTrack trackB

/-- Sample container whose total duration exceeds one hour. -/
def sampleLong : MusicLinkedList :=
  (MusicLinkedList.empty.addTrack trackA).addTrack trackC


namespace MusicLinkedList

@[simp] lemma updateOriginalOrder_ring (l : MusicLinkedList) :
    l.updateOriginalOrder.ring = l.ring := by
  cases h : l.isShuffled <;> simp [updateOriginalOrder, h]

@[simp] lemma updateOriginalOrder_current (l : MusicLinkedList) :
    l.updateOriginalOrder.current = l.current := by
  cases h : l.isShuffled <;> simp [updateOriginalOrder, h]

@[simp] lemma updateOriginalOrder_size (l : MusicLinkedList) :
    l.updateOriginalOrder.size = l.size := by
  cases h : l.isShuffled <;> simp [updateOriginalOrder, h]

@[simp] lemma updateOriginalOrder_isShuffled (l : MusicLinkedList) :
    l.updateOriginalOrder.isShuffled = l.isShuffled := by
  cases h : l.isShuffled <;> simp [updateOriginalOrder, h]

@[simp] lemma addTrack_ring (t : Track) (l : MusicLinkedList) :
    (l.addTrack t).ring = l.ring ++ [t] := by
  cases h : l.ring.isEmpty <;>
    simp_all [addTrack, List.isEmpty_iff]

@[simp] lemma addTrack_size (t : Track) (l : MusicLinkedList) :
    (l.addTrack t).size = l.size + 1 := by
  cases h : l.ring.isEmpty <;> simp [addTrack, h]

@[simp] lemma addTrack_isShuffled (t : Track) (l : MusicLinkedList) :
    (l.addTrack t).isShuffled = l.isShuffled := by
  cases h : l.ring.isEmpty <;> simp [addTrack, h]

lemma addTrack_current (t : Track) (l : MusicLinkedList) :
    (l.addTrack t).current = if l.ring.isEmpty then some 0 else l.current := by
  cases h : l.ring.isEmpty <;> simp [addTrack, h]

@[simp] lemma clear_ring (l : MusicLinkedList) : l.clear.ring = [] := rfl

@[simp] lemma clear_current (l : MusicLinkedList) : l.clear.current = none := rfl

@[simp] lemma clear_size (l : MusicLinkedList) : l.clear.size = 0 := rfl

@[simp] lemma clear_isShuffled (l : MusicLinkedList) :
    l.clear.isShuffled = l.isShuffled := rfl

@[simp] lemma clear_originalOrder (l : MusicLinkedList) :
    l.clear.originalOrder = l.originalOrder := rfl

lemma addAll_ring (ts : List Track) (l : MusicLinkedList) :
    (addAll ts l).ring = l.ring ++ ts := by
  induction ts generalizing l with
  | nil => simp [addAll]
  | cons t ts ih =>
    show (addAll ts (l.addTrack t)).ring = _
    rw [ih, addTrack_ring, List.append_assoc]
    rfl

lemma addAll_size (ts : List Track) (l : MusicLinkedList) :
    (addAll ts l).size = l.size + ts.length := by
  induction ts generalizing l with
  | nil => simp [addAll]
  | cons t ts ih =>
    show (addAll ts (l.addTrack t)).size = _
    rw [ih, addTrack_size, List.length_cons]
    omega

lemma addAll_isShuffled (ts : List Track) (l : MusicLinkedList) :
    (addAll ts l).isShuffled = l.isShuffled := by
  induction ts generalizing l with
  | nil => simp [addAll]
  | cons t ts ih =>
    show (addAll ts (l.addTrack t)).isShuffled = _
    rw [ih, addTrack_isShuffled]

@[simp] lemma setCurrentTrack_ring (trackId : String) (l : MusicLinkedList) :
    (l.setCurrentTrack trackId).2.ring = l.ring := by
  cases h : findTrackIdx trackId l.ring <;> simp [setCurrentTrack, h]

@[simp] lemma setCurrentTrack_size (trackId : String) (l : MusicLinkedList) :
    (l.setCurrentTrack trackId).2.size = l.size := by
  cases h : findTrackIdx trackId l.ring <;> simp [setCurrentTrack, h]

@[simp] lemma setCurrentTrack_isShuffled (trackId : String) (l : MusicLinkedList) :
    (l.setCurrentTrack trackId).2.isShuffled = l.isShuffled := by
  cases h : findTrackIdx trackId l.ring <;> simp [setCurrentTrack, h]

end MusicLinkedList

namespace MusicLinkedList

lemma findTrackIdx_lt (tid : String) :
    ∀ (ts : List Track) (k : Nat), findTrackIdx tid ts = some k → k < ts.length := by
  intro ts
  induction ts with
  | nil => intro k h; simp [findTrackIdx] at h
  | cons u us ih =>
    intro k h
    by_cases hu : (u.id == tid) = true
    · simp [findTrackIdx, hu] at h
      simp [← h]
    · cases hf : findTrackIdx tid us with
      | none => simp [findTrackIdx, hu, hf] at h
      | some k' =>
        simp [findTrackIdx, hu, hf] at h
        have := ih k' hf
        simp [← h, List.length_cons]
        omega

lemma findTrackIdx_getElem (tid : String) :
    ∀ (ts : List Track) (k : Nat), findTrackIdx tid ts = some k →
      ∃ t, ts[k]? = some t ∧ t.id = tid := by
  intro ts
  induction ts with
  | nil => intro k h; simp [findTrackIdx] at h
  | cons u us ih =>
    intro k h
    by_cases hu : (u.id == tid) = true
    · simp [findTrackIdx, hu] at h
      exact ⟨u, by simp [← h], eq_of_beq hu⟩
    · cases hf : findTrackIdx tid us with
      | none => simp [findTrackIdx, hu, hf] at h
      | some k' =>
        simp [findTrackIdx, hu, hf] at h
        obtain ⟨t, ht, hid⟩ := ih k' hf
        exact ⟨t, by rw [← h, List.getElem?_cons_succ]; exact ht, hid⟩

lemma findTrackIdx_eq_none_iff (tid : String) (ts : List Track) :
    findTrackIdx tid ts = none ↔ ∀ t ∈ ts, t.id ≠ tid := by
  induction ts with
  | nil => simp [findTrackIdx]
  | cons u us ih =>
    by_cases hu : (u.id == tid) = true
    · simp [findTrackIdx, hu, eq_of_beq hu]
    · have hne : u.id ≠ tid := by
        intro he
        exact absurd (by simp [he]) hu
      simp [findTrackIdx, hu, ih, hne]

lemma findTrackIdx_first (tid : String) :
    ∀ (ts : List Track) (k : Nat), findTrackIdx tid ts = some k →
      ∀ m, m < k → ∀ u, ts[m]? = some u → u.id ≠ tid := by
  intro ts
  induction ts with
  | nil => intro k h; simp [findTrackIdx] at h
  | cons v vs ih =>
    intro k h m hm u hu
    by_cases hv : (v.id == tid) = true
    · simp [findTrackIdx, hv] at h
      omega
    · cases hf : findTrackIdx tid vs with
      | none => simp [findTrackIdx, hv, hf] at h
      | some k' =>
        simp [findTrackIdx, hv, hf] at h
        match m with
        | 0 =>
          simp only [List.getElem?_cons_zero, Option.some.injEq] at hu
          subst hu
          intro he
          exact absurd (by simp [he]) hv
        | m' + 1 =>
          rw [List.getElem?_cons_succ] at hu
          exact ih k' hf m' (by omega) u hu

lemma findTrackIdx_of_first (tid : String) :
    ∀ (ts : List Track) (k : Nat) (t : Track), ts[k]? = some t → t.id = tid →
      (∀ m, m < k → ∀ u, ts[m]? = some u → u.id ≠ tid) →
      findTrackIdx tid ts = some k := by
  intro ts
  induction ts with
  | nil => intro k t ht; simp at ht
  | cons v vs ih =>
    intro k t ht hid hfirst
    match k with
    | 0 =>
      simp only [List.getElem?_cons_zero, Option.some.injEq] at ht
      subst ht
      simp [findTrackIdx, hid]
    | k' + 1 =>
      rw [List.getElem?_cons_succ] at ht
      have hv : v.id ≠ tid := hfirst 0 (by omega) v (by simp)
      have hv' : (v.id == tid) = false := by
        simpa using hv
      have := ih k' t ht hid (fun m hm u hu =>
        hfirst (m + 1) (by omega) u (by rwa [List.getElem?_cons_succ]))
      simp [findTrackIdx, hv', this]

/-- With pairwise distinct identifiers, the position of a matching node is
exactly what the linear search returns. -/
lemma findTrackIdx_of_nodup (tid : String) (ts : List Track) (k : Nat) (t : Track)
    (hnd : (ts.map Track.id).Nodup) (ht : ts[k]? = some t) (hid : t.id = tid) :
    findTrackIdx tid ts = some k := by
  apply findTrackIdx_of_first tid ts k t ht hid
  intro m hm u hu he
  have hmap₁ : (ts.map Track.id)[m]? = some tid := by
    rw [List.getElem?_map, hu, Option.map_some', he]
  have hmap₂ : (ts.map Track.id)[k]? = some tid := by
    rw [List.getElem?_map, ht, Option.map_some', hid]
  rw [List.getElem?_eq_some] at hmap₁ hmap₂
  obtain ⟨hlen₁, hg₁⟩ := hmap₁
  obtain ⟨hlen₂, hg₂⟩ := hmap₂
  have heq : (ts.map Track.id).get ⟨m, hlen₁⟩ = (ts.map Track.id).get ⟨k, hlen₂⟩ := by
    simp [List.get_eq_getElem, hg₁, hg₂]
  have hmk := (List.Nodup.get_inj_iff hnd).mp heq
  have : m = k := by simpa using hmk
  omega

end MusicLinkedList

open MusicLinkedList

/-- The empty pattern matches at the head of anything. -/
lemma occursIn_nil : ∀ cs : List Char, occursIn [] cs = true
  | [] => rfl
  | _ :: cs => by simp [occursIn, matchesAt, occursIn_nil cs]

/-- C8: `clear()` always produces the empty state — `head` and `current`
empty and `size = 0` — while leaving the `shuffled` flag and the
`originalOrder` snapshot exactly as they were, for every starting state. -/
theorem C8_clear_resets (l : MusicLinkedList) :
    l.clear.ring = [] ∧ l.clear.current = none ∧ l.clear.size = 0 ∧
    l.clear.isShuffled = l.isShuffled ∧ l.clear.originalOrder = l.originalOrder :=
  ⟨rfl, rfl, rfl, rfl, rfl⟩

/-- C10: `searchTracks` with the empty string returns exactly `getAllTracks()`
— every track, including those with empty or absent fields, matches the empty
query, with no empty-query special-casing in the container. -/
theorem C10_search_empty_query (l : MusicLinkedList) :
    l.searchTracks "" = l.getAllTracks := by
  show l.getAllTracks.filter _ = l.getAllTracks
  apply List.filter_eq_self.mpr
  intro t ht
  have hterm : (strToLower "").data = [] := rfl
  have h1 : strIncludes (strToLower t.title) (strToLower "") = true := by
    show occursIn (strToLower "").data _ = true
    rw [hterm]
    exact occursIn_nil _
  simp [h1]

/-- C2: inserting any sequence of tracks with pairwise distinct identifiers
via `addTrack` into the initially empty container makes `getAllTracks()`
return exactly those tracks in insertion order, with `size` equal to the
count inserted. -/
theorem C2_insert_order (ts : List Track) (_hnd : (ts.map Track.id).Nodup) :
    (addAll ts MusicLinkedList.empty).getAllTracks = ts ∧
    (addAll ts MusicLinkedList.empty).size = ts.length := by
  refine ⟨?_, ?_⟩
  · show (addAll ts MusicLinkedList.empty).ring = ts
    rw [addAll_ring]
    rfl
  · rw [addAll_size]
    simp [MusicLinkedList.empty]

/-- Witness for C2 at a concrete two-track insertion sequence. -/
theorem C2_insert_order_witness :
    (([trackA, trackB].map Track.id).Nodup) ∧
    ((addAll [trackA, trackB] MusicLinkedList.empty).getAllTracks = [trackA, trackB] ∧
     (addAll [trackA, trackB] MusicLinkedList.empty).size = 2) :=
  ⟨by decide, C2_insert_order [trackA, trackB] (by decide)⟩

/-- C7: `setCurrentTrack` with an identifier present in the ring sets
`current` to the first node in ring order from `head` whose identifier
matches and returns that node; with an absent identifier (including on an
empty container) it returns null and leaves the whole state unchanged. -/
theorem C7_setCurrentTrack (l : MusicLinkedList) (tid : String) :
    (∀ j t, l.ring[j]? = some t → t.id = tid →
      (∀ m, m < j → ∀ u, l.ring[m]? = some u → u.id ≠ tid) →
      l.setCurrentTrack tid = (some t, { l with current := some j })) ∧
    ((∀ t ∈ l.ring, t.id ≠ tid) → l.setCurrentTrack tid = (none, l)) := by
  constructor
  · intro j t hj hid hfirst
    have hf := findTrackIdx_of_first tid l.ring j t hj hid hfirst
    simp [setCurrentTrack, hf, hj]
  · intro habs
    have hf := (findTrackIdx_eq_none_iff tid l.ring).mpr habs
    simp [setCurrentTrack, hf]

/-- Witness for C7: a present identifier is selected, an absent identifier is
a no-op, on a concrete two-track container. -/
theorem C7_setCurrentTrack_witness :
    sampleL.setCurrentTrack "B" = (some trackB, { sampleL with current := some 1 }) ∧
    sampleL.setCurrentTrack "Z" = (none, sampleL) := by
  constructor
  · refine (C7_setCurrentTrack sampleL "B").1 1 trackB (by decide) (by decide) ?_
    intro m hm u hu
    have hm0 : m = 0 := by omega
    subst hm0
    have hr : sampleL.ring = [trackA, trackB] := by decide
    rw [hr] at hu
    simp only [List.getElem?_cons_zero, Option.some.injEq] at hu
    subst hu
    decide
  · exact (C7_setCurrentTrack sampleL "Z").2 (by decide)

lemma nextTrack_state (l : MusicLinkedList) (i : Nat) (hc : l.current = some i) :
    l.nextTrack.2 = { l with current := some ((i + 1) % l.ring.length) } := by
  simp [nextTrack, hc]

lemma prevTrack_state (l : MusicLinkedList) (i : Nat) (hc : l.current = some i) :
    l.prevTrack.2 = { l with current := some ((i + l.ring.length - 1) % l.ring.length) } := by
  simp [prevTrack, hc]

lemma iterNext_state :
    ∀ (m : Nat) (l : MusicLinkedList) (i : Nat), l.current = some i →
      i < l.ring.length →
      iterNext m l = { l with current := some ((i + m) % l.ring.length) } := by
  intro m
  induction m with
  | zero =>
    intro l i hc hi
    show l = _
    rw [Nat.add_zero, Nat.mod_eq_of_lt hi, ← hc]
  | succ m ih =>
    intro l i hc hi
    have hn : 0 < l.ring.length := by omega
    show iterNext m l.nextTrack.2 = _
    rw [nextTrack_state l i hc]
    rw [ih { l with current := some ((i + 1) % l.ring.length) }
          ((i + 1) % l.ring.length) rfl (Nat.mod_lt _ hn)]
    have harith : ((i + 1) % l.ring.length + m) % l.ring.length
        = (i + (m + 1)) % l.ring.length := by
      rw [Nat.mod_add_mod]
      congr 1
      omega
    rw [harith]

lemma iterPrev_state :
    ∀ (m : Nat) (l : MusicLinkedList) (i : Nat), l.current = some i →
      i < l.ring.length →
      iterPrev m l =
        { l with current := some ((i + m * (l.ring.length - 1)) % l.ring.length) } := by
  intro m
  induction m with
  | zero =>
    intro l i hc hi
    show l = _
    rw [Nat.zero_mul, Nat.add_zero, Nat.mod_eq_of_lt hi, ← hc]
  | succ m ih =>
    intro l i hc hi
    have hn : 0 < l.ring.length := by omega
    show iterPrev m l.prevTrack.2 = _
    rw [prevTrack_state l i hc]
    rw [ih { l with current := some ((i + l.ring.length - 1) % l.ring.length) }
          ((i + l.ring.length - 1) % l.ring.length) rfl (Nat.mod_lt _ hn)]
    have harith : ((i + l.ring.length - 1) % l.ring.length + m * (l.ring.length - 1))
          % l.ring.length
        = (i + (m + 1) * (l.ring.length - 1)) % l.ring.length := by
      rw [Nat.mod_add_mod, Nat.succ_mul]
      congr 1
      omega
    rw [harith]

/-- C4: on a well-formed non-empty container, `size` successive `nextTrack()`
calls return the state (in particular `current`) to exactly where it started,
and likewise for `prevTrack()`; on an empty container both return null and
change nothing. -/
theorem C4_circular_wraparound (l : MusicLinkedList) (h : WF l) :
    (l.ring ≠ [] → iterNext l.size l = l ∧ iterPrev l.size l = l) ∧
    (l.ring = [] → l.nextTrack = (none, l) ∧ l.prevTrack = (none, l)) := by
  obtain ⟨hsize, hcur⟩ := h
  constructor
  · intro hne
    have hn : 0 < l.ring.length := List.length_pos.mpr hne
    cases hc : l.current with
    | none =>
      rw [hc] at hcur
      exact absurd (List.length_eq_zero.mp hcur) hne
    | some i =>
      rw [hc] at hcur
      have hi : i < l.ring.length := hcur
      constructor
      · have harith : (i + l.size) % l.ring.length = i := by
          rw [hsize, Nat.add_mod_right]
          exact Nat.mod_eq_of_lt hi
        rw [iterNext_state l.size l i hc hi, harith, ← hc]
      · have harith : (i + l.size * (l.ring.length - 1)) % l.ring.length = i := by
          rw [hsize, Nat.mul_comm, Nat.add_mul_mod_self_right]
          exact Nat.mod_eq_of_lt hi
        rw [iterPrev_state l.size l i hc hi, harith, ← hc]
  · intro he
    have hc : l.current = none := by
      cases hc : l.current with
      | none => rfl
      | some i =>
        rw [hc] at hcur
        rw [he] at hcur
        exact absurd hcur (by simp [currentOK])
    constructor <;> simp [nextTrack, prevTrack, hc]

/-- Witness for C4: two forward steps and two backward steps on a concrete
two-track container return to the start; the empty container is a no-op. -/
theorem C4_circular_wraparound_witness :
    (iterNext sampleL.size sampleL = sampleL ∧ iterPrev sampleL.size sampleL = sampleL) ∧
    (MusicLinkedList.empty.nextTrack = (none, MusicLinkedList.empty) ∧
     MusicLinkedList.empty.prevTrack = (none, MusicLinkedList.empty)) :=
  ⟨(C4_circular_wraparound sampleL (by decide)).1 (by decide),
   (C4_circular_wraparound MusicLinkedList.empty (by decide)).2 (by decide)⟩


/-- Replacing the `m`-th element by `x` and moving the old value `b` to the
front is a permutation of putting `x` at the front instead. -/
lemma set_cons_perm (x b : Track) :
    ∀ (xs : List Track) (m : Nat), xs[m]? = some b →
      List.Perm (b :: xs.set m x) (x :: xs) := by
  intro xs
  induction xs with
  | nil => intro m h; simp at h
  | cons y ys ih =>
    intro m h
    match m with
    | 0 =>
      simp only [List.getElem?_cons_zero, Option.some.injEq] at h
      show List.Perm (b :: x :: ys) (x :: y :: ys)
      rw [← h]
      exact List.Perm.swap x y ys
    | k + 1 =>
      rw [List.getElem?_cons_succ] at h
      show List.Perm (b :: y :: ys.set k x) (x :: y :: ys)
      exact List.Perm.trans (List.Perm.swap y b (ys.set k x))
        (List.Perm.trans (List.Perm.cons y (ih k h)) (List.Perm.swap x y ys))

/-- Swapping two valid positions of a list is a permutation. -/
lemma set_set_swap_perm :
    ∀ (l : List Track) (i j : Nat) (a b : Track),
      l[i]? = some a → l[j]? = some b →
      List.Perm ((l.set i b).set j a) l := by
  intro l
  induction l with
  | nil => intro i j a b hi; simp at hi
  | cons x xs ih =>
    intro i j a b hi hj
    match i with
    | 0 =>
      simp only [List.getElem?_cons_zero, Option.some.injEq] at hi
      match j with
      | 0 =>
        simp only [List.getElem?_cons_zero, Option.some.injEq] at hj
        show List.Perm (a :: xs) (x :: xs)
        rw [← hi]
      | k + 1 =>
        rw [List.getElem?_cons_succ] at hj
        show List.Perm (b :: xs.set k a) (x :: xs)
        rw [← hi]
        exact set_cons_perm x b xs k hj
    | i' + 1 =>
      rw [List.getElem?_cons_succ] at hi
      match j with
      | 0 =>
        simp only [List.getElem?_cons_zero, Option.some.injEq] at hj
        show List.Perm (a :: xs.set i' b) (x :: xs)
        rw [← hj]
        exact set_cons_perm x a xs i' hi
      | j' + 1 =>
        rw [List.getElem?_cons_succ] at hj
        show List.Perm (x :: (xs.set i' b).set j' a) (x :: xs)
        exact List.Perm.cons x (ih i' j' a b hi hj)

/-- One swap of the Fisher-Yates loop permutes the list, whatever the drawn
indices are. -/
lemma listSwap_perm (l : List Track) (i j : Nat) :
    List.Perm (listSwap l i j) l := by
  cases hi : l[i]? with
  | none =>
    unfold listSwap
    rw [hi]
  | some a =>
    cases hj : l[j]? with
    | none =>
      unfold listSwap
      rw [hi, hj]
    | some b =>
      unfold listSwap
      rw [hi, hj]
      exact set_set_swap_perm l i j a b hi hj

lemma fyLoop_perm (js : Nat → Nat) :
    ∀ (i : Nat) (ts : List Track), List.Perm (fyLoop js i ts) ts := by
  intro i
  induction i with
  | zero => intro ts; exact List.Perm.refl ts
  | succ i ih =>
    intro ts
    exact List.Perm.trans (ih (listSwap ts (i + 1) (js (i + 1))))
      (listSwap_perm ts (i + 1) (js (i + 1)))

/-- The full Fisher-Yates pass of `shuffle()` permutes the materialized
track sequence. -/
lemma fisherYates_perm (js : Nat → Nat) (ts : List Track) :
    List.Perm (fisherYates js ts) ts :=
  fyLoop_perm js (ts.length - 1) ts

lemma fisherYates_length (js : Nat → Nat) (ts : List Track) :
    (fisherYates js ts).length = ts.length :=
  (fisherYates_perm js ts).length_eq

lemma shuffle_ring (js : Nat → Nat) (l : MusicLinkedList) (h : ¬ l.size ≤ 1) :
    (l.shuffle js).ring = fisherYates js l.ring := by
  unfold shuffle
  rw [if_neg h]
  cases hct : l.getCurrentTrack with
  | none => simp [hct, addAll_ring, getAllTracks]
  | some t => simp [hct, addAll_ring, getAllTracks]

lemma shuffle_size (js : Nat → Nat) (l : MusicLinkedList) (h : ¬ l.size ≤ 1) :
    (l.shuffle js).size = l.ring.length := by
  unfold shuffle
  rw [if_neg h]
  cases hct : l.getCurrentTrack with
  | none => simp [hct, addAll_size, getAllTracks, fisherYates_length]
  | some t => simp [hct, addAll_size, getAllTracks, fisherYates_length]

/-- C6: `shuffle()` keeps the multiset of track identifiers of
`getAllTracks()` and the `size` unchanged, and is a complete no-op when
`size <= 1` — for any sequence of random draws. -/
theorem C6_shuffle_permutation (l : MusicLinkedList) (js : Nat → Nat) (h : WF l) :
    List.Perm ((l.shuffle js).getAllTracks.map Track.id)
      (l.getAllTracks.map Track.id) ∧
    (l.shuffle js).size = l.size ∧
    (l.size ≤ 1 → l.shuffle js = l) := by
  by_cases hs : l.size ≤ 1
  · have hid : l.shuffle js = l := by
      unfold shuffle
      rw [if_pos hs]
    rw [hid]
    exact ⟨List.Perm.refl _, rfl, fun _ => rfl⟩
  · refine ⟨?_, ?_, fun hc => absurd hc hs⟩
    · show List.Perm ((l.shuffle js).ring.map Track.id) (l.ring.map Track.id)
      rw [shuffle_ring js l hs]
      exact (fisherYates_perm js l.ring).map Track.id
    · rw [shuffle_size js l hs, h.1]

/-- Witness for C6: a concrete shuffled two-track container keeps its size. -/
theorem C6_shuffle_permutation_witness :
    (sampleL.shuffle (fun _ => 0)).size = sampleL.size :=
  (C6_shuffle_permutation sampleL (fun _ => 0) (by decide)).2.1

lemma WF_clear (l : MusicLinkedList) : WF l.clear :=
  ⟨rfl, rfl⟩

lemma WF_addTrack (t : Track) (l : MusicLinkedList) (h : WF l) :
    WF (l.addTrack t) := by
  obtain ⟨hs, hc⟩ := h
  refine ⟨?_, ?_⟩
  · rw [addTrack_size, addTrack_ring, List.length_append, hs]
    rfl
  · rw [addTrack_current, addTrack_ring]
    by_cases he : l.ring.isEmpty
    · rw [if_pos he]
      have : l.ring = [] := List.isEmpty_iff.mp he
      simp [this, currentOK]
    · rw [if_neg he]
      have hne : l.ring ≠ [] := fun hh => he (List.isEmpty_iff.mpr hh)
      have hlen : 0 < l.ring.length := List.length_pos.mpr hne
      cases hcur : l.current with
      | none =>
        rw [hcur] at hc
        have : l.ring.length = 0 := hc
        omega
      | some i =>
        rw [hcur] at hc
        have : i < l.ring.length := hc
        show i < (l.ring ++ [t]).length
        rw [List.length_append]
        simp
        omega

lemma WF_addAll (ts : List Track) (l : MusicLinkedList) (h : WF l) :
    WF (addAll ts l) := by
  induction ts generalizing l with
  | nil => exact h
  | cons t ts ih => exact ih (l.addTrack t) (WF_addTrack t l h)

lemma WF_setCurrentTrack (tid : String) (l : MusicLinkedList) (h : WF l) :
    WF (l.setCurrentTrack tid).2 := by
  cases hf : findTrackIdx tid l.ring with
  | none =>
    have : (l.setCurrentTrack tid).2 = l := by simp [setCurrentTrack, hf]
    rw [this]
    exact h
  | some j =>
    have hj := findTrackIdx_lt tid l.ring j hf
    have : (l.setCurrentTrack tid).2 = { l with current := some j } := by
      simp [setCurrentTrack, hf]
    rw [this]
    exact ⟨h.1, hj⟩

lemma WF_nextTrack (l : MusicLinkedList) (h : WF l) : WF l.nextTrack.2 := by
  cases hc : l.current with
  | none =>
    have : l.nextTrack.2 = l := by simp [nextTrack, hc]
    rw [this]
    exact h
  | some i =>
    have hi : i < l.ring.length := by
      have := h.2
      rw [hc] at this
      exact this
    rw [nextTrack_state l i hc]
    exact ⟨h.1, Nat.mod_lt _ (by omega)⟩

lemma WF_prevTrack (l : MusicLinkedList) (h : WF l) : WF l.prevTrack.2 := by
  cases hc : l.current with
  | none =>
    have : l.prevTrack.2 = l := by simp [prevTrack, hc]
    rw [this]
    exact h
  | some i =>
    have hi : i < l.ring.length := by
      have := h.2
      rw [hc] at this
      exact this
    rw [prevTrack_state l i hc]
    exact ⟨h.1, Nat.mod_lt _ (by omega)⟩

/-- The rebuild pattern shared by `shuffle()` and `restoreOrder()` produces a
well-formed state. -/
lemma WF_rebuild (ts : List Track) (ct : Option Track) (l : MusicLinkedList) :
    WF (match ct with
        | some t => ((addAll ts l.clear).setCurrentTrack t.id).2
        | none => addAll ts l.clear) := by
  cases ct with
  | none => exact WF_addAll ts l.clear (WF_clear l)
  | some t =>
    exact WF_setCurrentTrack t.id (addAll ts l.clear) (WF_addAll ts l.clear (WF_clear l))

lemma WF_shuffle (js : Nat → Nat) (l : MusicLinkedList) (h : WF l) :
    WF (l.shuffle js) := by
  unfold shuffle
  by_cases hs : l.size ≤ 1
  · rw [if_pos hs]
    exact h
  · rw [if_neg hs]
    exact WF_rebuild (fisherYates js l.getAllTracks) l.getCurrentTrack l

lemma WF_restoreOrder (l : MusicLinkedList) (h : WF l) : WF l.restoreOrder := by
  unfold restoreOrder
  by_cases hs : (!l.isShuffled || l.originalOrder.isEmpty) = true
  · rw [if_pos hs]
    exact h
  · rw [if_neg hs]
    exact WF_rebuild l.originalOrder l.getCurrentTrack l

/-- The index a surviving node moves to after the splice removes index `k`. -/
def spliceIdx (k m : Nat) : Nat :=
  if m < k then m else m - 1

lemma removeTrack_guard (tid : String) (l : MusicLinkedList)
    (hg : (l.ring.isEmpty || l.size == 0) = true) :
    l.removeTrack tid = (false, l) := by
  simp only [removeTrack, hg, if_true]

lemma removeTrack_notfound (tid : String) (l : MusicLinkedList)
    (hg : ¬ (l.ring.isEmpty || l.size == 0) = true)
    (hf : findTrackIdx tid l.ring = none) :
    l.removeTrack tid = (false, l) := by
  simp only [removeTrack, hg, if_false, hf]
  rfl

lemma removeTrack_single (tid : String) (l : MusicLinkedList) (k : Nat)
    (hg : ¬ (l.ring.isEmpty || l.size == 0) = true)
    (hf : findTrackIdx tid l.ring = some k)
    (h1 : (l.size == 1) = true) :
    l.removeTrack tid = (true, l.clear) := by
  simp only [removeTrack, hg, if_false, hf, h1, if_true]
  rfl

lemma removeTrack_splice (tid : String) (l : MusicLinkedList) (k : Nat)
    (hg : ¬ (l.ring.isEmpty || l.size == 0) = true)
    (hf : findTrackIdx tid l.ring = some k)
    (h1 : ¬ (l.size == 1) = true) :
    l.removeTrack tid =
      (true, ({ l with
          ring := l.ring.eraseIdx k,
          current := match l.current with
            | none => none
            | some c =>
              if c = k then some (spliceIdx k ((k + 1) % l.ring.length))
              else some (spliceIdx k c),
          size := l.size - 1 } : MusicLinkedList).updateOriginalOrder) := by
  simp only [removeTrack, hg, if_false, hf, h1, spliceIdx]
  rfl

lemma WF_removeTrack (tid : String) (l : MusicLinkedList) (h : WF l) :
    WF (l.removeTrack tid).2 := by
  by_cases hg : (l.ring.isEmpty || l.size == 0) = true
  · rw [removeTrack_guard tid l hg]
    exact h
  · have hne : l.ring ≠ [] := by
      intro hh
      exact hg (by simp [hh])
    have hn : 0 < l.ring.length := List.length_pos.mpr hne
    cases hf : findTrackIdx tid l.ring with
    | none =>
      rw [removeTrack_notfound tid l hg hf]
      exact h
    | some k =>
      have hk : k < l.ring.length := findTrackIdx_lt tid l.ring k hf
      by_cases h1 : (l.size == 1) = true
      · rw [removeTrack_single tid l k hg hf h1]
        exact WF_clear l
      · rw [removeTrack_splice tid l k hg hf h1]
        have hsz : l.size = l.ring.length := h.1
        have hs2 : 2 ≤ l.ring.length := by
          have hone : l.size ≠ 1 := by simpa using h1
          have hzero : l.size ≠ 0 := by
            intro hh
            exact hg (by simp [hh])
          omega
        cases hc : l.current with
        | none =>
          have hcur := h.2
          rw [hc] at hcur
          have : l.ring.length = 0 := hcur
          omega
        | some c =>
          have hcb : c < l.ring.length := by
            have hcur := h.2
            rw [hc] at hcur
            exact hcur
          refine ⟨?_, ?_⟩
          · simp only [updateOriginalOrder_size, updateOriginalOrder_ring]
            show l.size - 1 = (l.ring.eraseIdx k).length
            rw [List.length_eraseIdx_of_lt hk, hsz]
          · simp only [updateOriginalOrder_current, updateOriginalOrder_ring]
            show currentOK
              (if c = k then some (spliceIdx k ((k + 1) % l.ring.length))
               else some (spliceIdx k c)) (l.ring.eraseIdx k).length
            rw [List.length_eraseIdx_of_lt hk]
            by_cases hck : c = k
            · rw [if_pos hck]
              show spliceIdx k ((k + 1) % l.ring.length) < l.ring.length - 1
              unfold spliceIdx
              by_cases hkn : k + 1 < l.ring.length
              · rw [Nat.mod_eq_of_lt hkn, if_neg (by omega : ¬ k + 1 < k)]
                omega
              · have hkeq : k + 1 = l.ring.length := by omega
                rw [hkeq, Nat.mod_self, if_pos (by omega : 0 < k)]
                omega
            · rw [if_neg hck]
              show spliceIdx k c < l.ring.length - 1
              unfold spliceIdx
              by_cases hlt : c < k
              · rw [if_pos hlt]
                omega
              · rw [if_neg hlt]
                omega

lemma iterIdx_next (n : Nat) (hn : 0 < n) :
    ∀ (m i : Nat), i < n → iterIdx (nextIdx n) m i = (i + m) % n := by
  intro m
  induction m with
  | zero =>
    intro i hi
    show i = (i + 0) % n
    rw [Nat.add_zero, Nat.mod_eq_of_lt hi]
  | succ m ih =>
    intro i hi
    show iterIdx (nextIdx n) m ((i + 1) % n) = _
    rw [ih ((i + 1) % n) (Nat.mod_lt _ hn)]
    show ((i + 1) % n + m) % n = _
    rw [Nat.mod_add_mod]
    congr 1
    omega

lemma iterIdx_prev (n : Nat) (hn : 0 < n) :
    ∀ (m i : Nat), i < n → iterIdx (prevIdx n) m i = (i + m * (n - 1)) % n := by
  intro m
  induction m with
  | zero =>
    intro i hi
    show i = (i + 0 * (n - 1)) % n
    rw [Nat.zero_mul, Nat.add_zero, Nat.mod_eq_of_lt hi]
  | succ m ih =>
    intro i hi
    show iterIdx (prevIdx n) m ((i + n - 1) % n) = _
    rw [ih ((i + n - 1) % n) (Nat.mod_lt _ hn)]
    show ((i + n - 1) % n + m * (n - 1)) % n = _
    rw [Nat.mod_add_mod, Nat.succ_mul]
    congr 1
    omega

/-- Every well-formed state satisfies the documented container invariant. -/
lemma WF_invariant (l : MusicLinkedList) (h : WF l) : Invariant l := by
  obtain ⟨hs, hc⟩ := h
  constructor
  · constructor
    · intro h0
      have hlen : l.ring.length = 0 := by omega
      refine ⟨List.length_eq_zero.mp hlen, ?_⟩
      cases hcur : l.current with
      | none => rfl
      | some i =>
        rw [hcur] at hc
        have hlt : i < l.ring.length := hc
        rw [hlen] at hlt
        exact absurd hlt (by omega)
    · rintro ⟨hr, _⟩
      rw [hs, hr]
      rfl
  · intro hpos
    have hn : 0 < l.ring.length := by omega
    refine ⟨hs.symm, ?_, ?_, ?_⟩
    · rw [iterIdx_next l.ring.length hn l.size 0 hn, Nat.zero_add, hs, Nat.mod_self]
    · rw [iterIdx_prev l.ring.length hn l.size 0 hn, Nat.zero_add, hs,
        Nat.mul_mod_right]
    · intro i hi
      constructor
      · show ((i + 1) % l.ring.length + l.ring.length - 1) % l.ring.length = i
        have e1 : (i + 1) % l.ring.length + l.ring.length - 1
            = (i + 1) % l.ring.length + (l.ring.length - 1) := by omega
        rw [e1, Nat.mod_add_mod]
        have e2 : i + 1 + (l.ring.length - 1) = i + l.ring.length := by omega
        rw [e2, Nat.add_mod_right]
        exact Nat.mod_eq_of_lt hi
      · show ((i + l.ring.length - 1) % l.ring.length + 1) % l.ring.length = i
        rw [Nat.mod_add_mod]
        have e2 : i + l.ring.length - 1 + 1 = i + l.ring.length := by omega
        rw [e2, Nat.add_mod_right]
        exact Nat.mod_eq_of_lt hi

/-- C5: starting from any well-formed container state, every public mutating
operation — `addTrack`, `nextTrack`, `prevTrack`, `setCurrentTrack`,
`removeTrack`, `shuffle`, `restoreOrder`, `clear` — leaves the container
satisfying the documented invariant: `size == 0` exactly when `head` and
`current` are both empty, and a non-empty container forms a single circular
doubly linked ring of exactly `size` nodes whose `next`/`prev` links are
mutually inverse. -/
theorem C5_invariants_preserved (l : MusicLinkedList) (t : Track) (tid : String)
    (js : Nat → Nat) (h : WF l) :
    Invariant (l.addTrack t) ∧ Invariant l.nextTrack.2 ∧ Invariant l.prevTrack.2 ∧
    Invariant (l.setCurrentTrack tid).2 ∧ Invariant (l.removeTrack tid).2 ∧
    Invariant (l.shuffle js) ∧ Invariant l.restoreOrder ∧ Invariant l.clear :=
  ⟨WF_invariant _ (WF_addTrack t l h), WF_invariant _ (WF_nextTrack l h),
   WF_invariant _ (WF_prevTrack l h), WF_invariant _ (WF_setCurrentTrack tid l h),
   WF_invariant _ (WF_removeTrack tid l h), WF_invariant _ (WF_shuffle js l h),
   WF_invariant _ (WF_restoreOrder l h), WF_invariant _ (WF_clear l)⟩

/-- Witness for C5 on a concrete two-track container. -/
theorem C5_invariants_preserved_witness :
    Invariant (sampleL.addTrack trackC) ∧ Invariant sampleL.nextTrack.2 ∧
    Invariant sampleL.prevTrack.2 ∧ Invariant (sampleL.setCurrentTrack "A").2 ∧
    Invariant (sampleL.removeTrack "A").2 ∧
    Invariant (sampleL.shuffle (fun _ => 0)) ∧ Invariant sampleL.restoreOrder ∧
    Invariant sampleL.clear :=
  C5_invariants_preserved sampleL trackC "A" (fun _ => 0) (by decide)

lemma foldl_duration (ts : List Track) :
    ∀ n : Nat, ts.foldl (fun total t => total + t.duration) n
      = n + (ts.map Track.duration).sum := by
  induction ts with
  | nil => intro n; simp
  | cons t ts ih =>
    intro n
    show ts.foldl _ (n + t.duration) = _
    rw [ih (n + t.duration), List.map_cons, List.sum_cons]
    omega

/-- `getTotalDuration()` is the sum of the duration fields in ring order. -/
lemma getTotalDuration_eq_sum (l : MusicLinkedList) :
    l.getTotalDuration = (l.ring.map Track.duration).sum := by
  show l.ring.foldl _ 0 = _
  rw [foldl_duration l.ring 0, Nat.zero_add]

lemma padStart2_length : ∀ n : Nat, n < 60 → (padStart2 (toString n)).length = 2 := by
  decide

/-- C9: `getTotalDuration()` returns the exact integer sum of all duration
fields; the formatted total is `H:MM:SS` (two-digit padded minutes and
seconds) when the total reaches one hour and `M:SS` otherwise; and a
container holding exactly two tracks of durations 233 and 200 yields total
433 formatted as `7:13`. -/
theorem C9_total_duration (l : MusicLinkedList) (a b : Track) (n : Nat) :
    l.getTotalDuration = (l.ring.map Track.duration).sum ∧
    (3600 ≤ l.getTotalDuration →
      l.getFormattedTotalDuration = toString (l.getTotalDuration / 3600) ++ ":" ++
        padStart2 (toString (l.getTotalDuration % 3600 / 60)) ++ ":" ++
        padStart2 (toString (l.getTotalDuration % 60))) ∧
    (l.getTotalDuration < 3600 →
      l.getFormattedTotalDuration = toString (l.getTotalDuration % 3600 / 60) ++ ":" ++
        padStart2 (toString (l.getTotalDuration % 60))) ∧
    (n < 60 → (padStart2 (toString n)).length = 2) ∧
    (l.ring = [a, b] → a.duration = 233 → b.duration = 200 →
      l.getTotalDuration = 433 ∧ l.getFormattedTotalDuration = "7:13") := by
  refine ⟨getTotalDuration_eq_sum l, ?_, ?_, padStart2_length n, ?_⟩
  · intro hge
    have hpos : 0 < l.getTotalDuration / 3600 :=
      Nat.div_pos hge (by omega)
    simp only [getFormattedTotalDuration]
    rw [if_pos hpos]
  · intro hlt
    have hz : l.getTotalDuration / 3600 = 0 := Nat.div_eq_of_lt hlt
    simp only [getFormattedTotalDuration]
    rw [hz]
    rfl
  · intro hab ha hb
    have htot : l.getTotalDuration = 433 := by
      rw [getTotalDuration_eq_sum, hab]
      simp [ha, hb]
    refine ⟨htot, ?_⟩
    simp only [getFormattedTotalDuration, htot]
    decide

/-- Witness for C9: concrete sub-hour and over-hour containers, and a
concrete padded numeral. -/
theorem C9_total_duration_witness :
    (sampleL.getTotalDuration = 433 ∧ sampleL.getFormattedTotalDuration = "7:13") ∧
    (sampleLong.getFormattedTotalDuration =
      toString (sampleLong.getTotalDuration / 3600) ++ ":" ++
      padStart2 (toString (sampleLong.getTotalDuration % 3600 / 60)) ++ ":" ++
      padStart2 (toString (sampleLong.getTotalDuration % 60))) ∧
    (sampleL.getFormattedTotalDuration =
      toString (sampleL.getTotalDuration % 3600 / 60) ++ ":" ++
      padStart2 (toString (sampleL.getTotalDuration % 60))) ∧
    (padStart2 (toString 7)).length = 2 :=
  ⟨(C9_total_duration sampleL trackA trackB 7).2.2.2.2 (by decide) rfl rfl,
   (C9_total_duration sampleLong trackA trackB 7).2.1 (by decide),
   (C9_total_duration sampleL trackA trackB 7).2.2.1 (by decide),
   (C9_total_duration sampleL trackA trackB 7).2.2.2.1 (by decide)⟩

lemma map_eraseIdx (f : Track → String) :
    ∀ (ts : List Track) (k : Nat), (ts.eraseIdx k).map f = (ts.map f).eraseIdx k := by
  intro ts
  induction ts with
  | nil => intro k; rfl
  | cons x xs ih =>
    intro k
    match k with
    | 0 => rfl
    | j + 1 =>
      show (x :: xs.eraseIdx j).map f = (f x :: (xs.map f).eraseIdx j)
      rw [List.map_cons, ih j]

lemma not_mem_eraseIdx_of_nodup :
    ∀ (xs : List String) (k : Nat) (a : String), xs.Nodup → xs[k]? = some a →
      a ∉ xs.eraseIdx k := by
  intro xs
  induction xs with
  | nil => intro k a _ hk; simp at hk
  | cons x t ih =>
    intro k a hnd hk
    match k with
    | 0 =>
      simp only [List.getElem?_cons_zero, Option.some.injEq] at hk
      show a ∉ t
      rw [← hk]
      exact (List.nodup_cons.mp hnd).1
    | j + 1 =>
      rw [List.getElem?_cons_succ] at hk
      show a ∉ x :: t.eraseIdx j
      rw [List.mem_cons]
      rintro (rfl | hmem)
      · exact (List.nodup_cons.mp hnd).1 (List.getElem?_mem hk)
      · exact ih j a (List.nodup_cons.mp hnd).2 hk hmem

lemma getElem?_eraseIdx_splice :
    ∀ (ts : List Track) (k m : Nat), m < ts.length → m ≠ k →
      (ts.eraseIdx k)[spliceIdx k m]? = ts[m]? := by
  intro ts
  induction ts with
  | nil => intro k m hm; simp at hm
  | cons x xs ih =>
    intro k m hm hne
    match k with
    | 0 =>
      match m with
      | 0 => exact absurd rfl hne
      | j + 1 =>
        show xs[spliceIdx 0 (j + 1)]? = (x :: xs)[j + 1]?
        have : spliceIdx 0 (j + 1) = j := by
          unfold spliceIdx
          rw [if_neg (by omega)]
          omega
        rw [this, List.getElem?_cons_succ]
    | k' + 1 =>
      match m with
      | 0 =>
        show (x :: xs.eraseIdx k')[spliceIdx (k' + 1) 0]? = (x :: xs)[0]?
        have : spliceIdx (k' + 1) 0 = 0 := by
          unfold spliceIdx
          rw [if_pos (by omega)]
        rw [this]
        simp
      | j + 1 =>
        have hmlt : j < xs.length := by
          simp only [List.length_cons] at hm
          omega
        have hjk : j ≠ k' := by
          intro hh
          exact hne (by omega)
        by_cases hlt : j < k'
        · have h1 : spliceIdx (k' + 1) (j + 1) = j + 1 := by
            unfold spliceIdx
            rw [if_pos (by omega)]
          have h2 : spliceIdx k' j = j := by
            unfold spliceIdx
            rw [if_pos hlt]
          show (x :: xs.eraseIdx k')[spliceIdx (k' + 1) (j + 1)]? = (x :: xs)[j + 1]?
          rw [h1, List.getElem?_cons_succ, List.getElem?_cons_succ]
          have := ih k' j hmlt hjk
          rw [h2] at this
          exact this
        · have hgt : k' < j := by omega
          have h1 : spliceIdx (k' + 1) (j + 1) = j := by
            unfold spliceIdx
            rw [if_neg (by omega)]
            omega
          have h2 : spliceIdx k' j = j - 1 := by
            unfold spliceIdx
            rw [if_neg (by omega)]
          show (x :: xs.eraseIdx k')[spliceIdx (k' + 1) (j + 1)]? = (x :: xs)[j + 1]?
          rw [h1, List.getElem?_cons_succ]
          have hj1 : j = (j - 1) + 1 := by omega
          rw [hj1, List.getElem?_cons_succ]
          have := ih k' j hmlt hjk
          rw [h2] at this
          rw [← hj1]
          exact this

/-- C3: `removeTrack` succeeds exactly when the identifier is present; on
failure the whole state is unchanged; on success `size` drops by one, the
identifier disappears from `getAllTracks()`, and the sole-node case is a full
clear; and when the ring has at least two nodes the ring loses exactly the
removed position, a removed `head` is replaced by its former `next`, and a
removed `current` is reassigned to the removed node's former `next`. -/
theorem C3_remove_track (l : MusicLinkedList) (tid : String) (k : Nat) (t : Track)
    (h : WF l) (hnd : (l.ring.map Track.id).Nodup) :
    ((l.removeTrack tid).1 = true ↔ tid ∈ l.ring.map Track.id) ∧
    ((l.removeTrack tid).1 = false → (l.removeTrack tid).2 = l) ∧
    ((l.removeTrack tid).1 = true →
      (l.removeTrack tid).2.size = l.size - 1 ∧
      tid ∉ (l.removeTrack tid).2.ring.map Track.id ∧
      (l.size = 1 → (l.removeTrack tid).2.ring = [] ∧
        (l.removeTrack tid).2.current = none ∧ (l.removeTrack tid).2.size = 0)) ∧
    (l.ring[k]? = some t → t.id = tid → 2 ≤ l.size →
      (l.removeTrack tid).2.ring = l.ring.eraseIdx k ∧
      (k = 0 → (l.removeTrack tid).2.ring.head? = l.ring[1]?) ∧
      (l.current = some k →
        (l.removeTrack tid).2.getCurrentTrack = l.ring[(k + 1) % l.ring.length]?)) := by
  by_cases hg : (l.ring.isEmpty || l.size == 0) = true
  · have hring : l.ring = [] := by
      have hg2 : l.ring = [] ∨ l.size = 0 := by simpa using hg
      rcases hg2 with hh | hh
      · exact hh
      · have hlen : l.ring.length = 0 := by rw [← h.1]; exact hh
        exact List.length_eq_zero.mp hlen
    have hd := removeTrack_guard tid l hg
    refine ⟨?_, ?_, ?_, ?_⟩
    · rw [hd, hring]
      simp
    · intro _
      rw [hd]
    · intro htrue
      rw [hd] at htrue
      exact absurd htrue (by simp)
    · intro hk1 _ _
      rw [hring] at hk1
      simp at hk1
  · have hne : l.ring ≠ [] := by
      intro hh
      exact hg (by simp [hh])
    cases hf : findTrackIdx tid l.ring with
    | none =>
      have hd := removeTrack_notfound tid l hg hf
      have habs : ∀ u ∈ l.ring, u.id ≠ tid := (findTrackIdx_eq_none_iff tid l.ring).mp hf
      refine ⟨?_, ?_, ?_, ?_⟩
      · rw [hd]
        constructor
        · intro hfalse
          exact absurd hfalse (by simp)
        · intro hmem
          obtain ⟨u, hu, hid⟩ := List.mem_map.mp hmem
          exact absurd hid (habs u hu)
      · intro _
        rw [hd]
      · intro htrue
        rw [hd] at htrue
        exact absurd htrue (by simp)
      · intro hk1 hid _
        have hsome := findTrackIdx_of_nodup tid l.ring k t hnd hk1 hid
        rw [hf] at hsome
        exact absurd hsome (by simp)
    | some k₀ =>
      have hk₀lt := findTrackIdx_lt tid l.ring k₀ hf
      have hmem : tid ∈ l.ring.map Track.id := by
        obtain ⟨u, hu, hid⟩ := findTrackIdx_getElem tid l.ring k₀ hf
        exact List.mem_map.mpr ⟨u, List.getElem?_mem hu, hid⟩
      by_cases h1 : (l.size == 1) = true
      · have hd := removeTrack_single tid l k₀ hg hf h1
        have hsz1 : l.size = 1 := by simpa using h1
        refine ⟨?_, ?_, ?_, ?_⟩
        · rw [hd]
          simp [hmem]
        · intro hfalse
          rw [hd] at hfalse
          exact absurd hfalse (by simp)
        · intro _
          rw [hd]
          exact ⟨by simp [hsz1], by simp, fun _ => ⟨rfl, rfl, rfl⟩⟩
        · intro _ _ hs2
          rw [hsz1] at hs2
          exact absurd hs2 (by omega)
      · have hd := removeTrack_splice tid l k₀ hg hf h1
        have hz : l.size ≠ 0 := by
          intro hh
          exact hg (by simp [hh])
        have h1' : l.size ≠ 1 := by simpa using h1
        have hs2 : 2 ≤ l.size := by omega
        have hn2 : 2 ≤ l.ring.length := by
          rw [← h.1]
          exact hs2
        refine ⟨?_, ?_, ?_, ?_⟩
        · rw [hd]
          simp [hmem]
        · intro hfalse
          rw [hd] at hfalse
          exact absurd hfalse (by simp)
        · intro _
          rw [hd]
          refine ⟨by simp, ?_, fun hsz1 => absurd hsz1 h1'⟩
          show tid ∉ (({ l with
              ring := l.ring.eraseIdx k₀,
              current := match l.current with
                | none => none
                | some c =>
                  if c = k₀ then some (spliceIdx k₀ ((k₀ + 1) % l.ring.length))
                  else some (spliceIdx k₀ c),
              size := l.size - 1 } : MusicLinkedList).updateOriginalOrder).ring.map Track.id
          rw [updateOriginalOrder_ring]
          show tid ∉ (l.ring.eraseIdx k₀).map Track.id
          rw [map_eraseIdx]
          apply not_mem_eraseIdx_of_nodup (l.ring.map Track.id) k₀ tid hnd
          obtain ⟨u, hu, hid⟩ := findTrackIdx_getElem tid l.ring k₀ hf
          rw [List.getElem?_map, hu, Option.map_some', hid]
        · intro hk1 hid hs2'
          have hsome := findTrackIdx_of_nodup tid l.ring k t hnd hk1 hid
          rw [hf] at hsome
          have hkk : k = k₀ := (Option.some.inj hsome).symm
          subst hkk
          have hklt : k < l.ring.length := hk₀lt
          refine ⟨?_, ?_, ?_⟩
          · rw [hd]
            simp only [updateOriginalOrder_ring]
          · intro hk0
            rw [hd]
            simp only [updateOriginalOrder_ring]
            subst hk0
            cases hr : l.ring with
            | nil => exact absurd hr hne
            | cons x xs =>
              show xs.head? = (x :: xs)[1]?
              rw [List.head?_eq_getElem?, List.getElem?_cons_succ]
          · intro hcur
            rw [hd]
            simp only [getCurrentTrack, updateOriginalOrder_current,
              updateOriginalOrder_ring, hcur]
            show (l.ring.eraseIdx k)[spliceIdx k ((k + 1) % l.ring.length)]?
              = l.ring[(k + 1) % l.ring.length]?
            apply getElem?_eraseIdx_splice
            · exact Nat.mod_lt _ (by omega)
            · by_cases hkn : k + 1 < l.ring.length
              · rw [Nat.mod_eq_of_lt hkn]
                omega
              · have hke : k + 1 = l.ring.length := by omega
                rw [hke, Nat.mod_self]
                omega

/-- Witness for C3: removing the head of a concrete two-track container. -/
theorem C3_remove_track_witness :
    ((sampleL.removeTrack "A").1 = true ↔ "A" ∈ sampleL.ring.map Track.id) ∧
    (sampleL.removeTrack "A").2.ring = sampleL.ring.eraseIdx 0 :=
  ⟨(C3_remove_track sampleL "A" 0 trackA (by decide) (by decide)).1,
   ((C3_remove_track sampleL "A" 0 trackA (by decide) (by decide)).2.2.2
     (by decide) rfl (by decide)).1⟩

/-- C1: the spec's shuffle/restore round-trip fails on the code.  On the
two-track container `[trackA, trackB]` (not shuffled), with the Fisher-Yates
draw `j = 0` at loop index `i = 1` (a legitimate `Math.random` outcome),
`shuffle()` rebuilds the ring through `addTrack` while `isShuffled` is still
false, so each `updateOriginalOrder()` overwrites `originalOrder` with the
partially rebuilt shuffled order; `restoreOrder()` therefore rebuilds the
shuffled order `[trackB, trackA]` instead of the pre-shuffle `[trackA,
trackB]`, and only the `shuffled` flag returns to false. -/
theorem C1_shuffle_restore_bug :
    sampleL.isShuffled = false ∧
    sampleL.getAllTracks = [trackA, trackB] ∧
    ((sampleL.shuffle (fun _ => 0)).restoreOrder).getAllTracks = [trackB, trackA] ∧
    ((sampleL.shuffle (fun _ => 0)).restoreOrder).isShuffled = false := by
  exact ⟨by decide, by decide, by decide, by decide⟩
